import Mathlib

/-!
Verification development for the package-installation orchestrator of the
dotfiles repository (Go sources under `installer/`).  The Go code is shallowly
embedded: pure functions become Lean functions on `List Char` / `String`,
external command execution (`runShellSilent`, `exec.LookPath`, `os.ReadDir`,
`os.Stat`, the `gh` CLI) is abstracted as a deterministic oracle environment
`Env`, and the mutable `InstalledCache` becomes explicit state passing over an
association list.  Every definition mirrors a specific Go function; comments
name the Go source location.
-/

namespace Dotfiles

/-! ## Go string primitives

Core Lean `String` operations are implemented on byte positions and do not
reduce in the kernel, so the Go `strings` functions used by the installer are
re-implemented here on the underlying character list (`String.data`).  The
installer only ever manipulates ASCII command output, for which character-wise
operations agree with Go's byte-wise ones. -/

/-- Whitespace predicate used by Go `strings.TrimSpace` / `strings.Fields`
(`unicode.IsSpace` restricted to ASCII, which is all the installer sees). -/
def isSpaceChar (c : Char) : Bool :=
  c = ' ' || c = '\t' || c = '\n' || c = '\x0b' || c = '\x0c' || c = '\r'

/-- Drop leading and trailing whitespace from a character list. -/
def trimChars (l : List Char) : List Char :=
  ((l.dropWhile isSpaceChar).reverse.dropWhile isSpaceChar).reverse

/-- Go `strings.TrimSpace`. -/
def goTrimSpace (s : String) : String :=
  String.mk (trimChars s.data)

/-- Go `strings.Split(s, sep)` for a one-character separator. -/
def goSplitChar (sep : Char) (s : String) : List String :=
  (s.data.splitOn sep).map String.mk

/-- Go `strings.Fields`: whitespace-separated, non-empty tokens. -/
def goFields (s : String) : List String :=
  ((s.data.splitOnP isSpaceChar).filter (fun w => w ≠ [])).map String.mk

/-- Go `strings.HasSuffix`. -/
def goHasSuffix (s suf : String) : Bool :=
  suf.data.isSuffixOf s.data

/-- Helper for `goContains`: does `sub` occur as a contiguous segment of the
second argument? -/
def goContainsAux (sub : List Char) : List Char → Bool
  | [] => sub.isEmpty
  | c :: t => sub.isPrefixOf (c :: t) || goContainsAux sub t

/-- Go `strings.Contains(s, sub)`. -/
def goContains (s sub : String) : Bool :=
  goContainsAux sub.data s.data

/-- ASCII lower-casing of one character (Go `strings.ToLower` on ASCII). -/
def lowerChar (c : Char) : Char :=
  if 'A' ≤ c && c ≤ 'Z' then Char.ofNat (c.toNat + 32) else c

/-- Go `strings.ToLower` (ASCII). -/
def goToLower (s : String) : String :=
  String.mk (s.data.map lowerChar)

/-- Go `strings.TrimSuffix`. -/
def goTrimSuffix (s suf : String) : String :=
  if suf.data.isSuffixOf s.data then
    String.mk (s.data.take (s.data.length - suf.data.length))
  else s

/-- Go `strings.ReplaceAll(s, old, new)` for one-character patterns (the code
only replaces a space with a dash). -/
def goReplaceChar (old new : Char) (s : String) : String :=
  String.mk (s.data.map (fun c => if c = old then new else c))

/-- Everything after the last slash; the whole string when there is no slash.
Models the Go idiom `if idx := strings.LastIndex(s, "/"); idx >= 0 { s = s[idx+1:] }`. -/
def afterLastSlash (s : String) : String :=
  String.mk ((s.data.splitOn '/').getLastD s.data)

/-- Everything before the first `@`; the whole string when there is no `@`.
Models `if idx := strings.Index(s, "@"); idx >= 0 { s = s[:idx] }`. -/
def beforeFirstAt (s : String) : String :=
  String.mk ((s.data.splitOn '@').headD s.data)

/-- Lexicographic order on character lists; Go `string <` on ASCII data. -/
def charListLt : List Char → List Char → Bool
  | [], [] => false
  | [], _ :: _ => true
  | _ :: _, [] => false
  | a :: as, b :: bs => if a = b then charListLt as bs else decide (a < b)

/-- Go `string <` comparison used by `sort.Slice` on package names. -/
def goStrLt (a b : String) : Bool :=
  charListLt a.data b.data

/-! ## Data model (`installer/packages.go`) -/

/-- Go `SnapSpec` (packages.go): snap name plus classic-confinement flag. -/
structure SnapSpec where
  name : String
  classic : Bool
deriving Repr, DecidableEq

/-- Go `ManualSpec` (packages.go).  The Go field `Type` is called `typ` here
because `type` is reserved in Lean; it holds one of "script", "git_clone",
"dmg", "deb", "rpm", "appimage". -/
structure ManualSpec where
  url : String := ""
  repo : String := ""
  assetPattern : String := ""
  typ : String := ""
  dest : String := ""
  checkCommand : String := ""
  checkDir : String := ""
  args : String := ""
deriving Repr, DecidableEq

/-- Go `InstallMethod` (packages.go): a flat struct of optional variant
fields, of which at most one is populated in well-formed catalogs. -/
structure InstallMethod where
  brew : String := ""
  cask : String := ""
  apt : String := ""
  dnf : String := ""
  uvTool : String := ""
  cargo : String := ""
  goTool : String := ""
  snap : Option SnapSpec := none
  flatpak : String := ""
  yay : String := ""
  ghExtension : String := ""
  eget : String := ""
  manual : Option ManualSpec := none
deriving Repr, DecidableEq

/-- Go `InstallMethod.MethodName` (packages.go): first populated variant in
the fixed priority order, else "unknown". -/
def InstallMethod.MethodName (im : InstallMethod) : String :=
  if im.brew ≠ "" then "brew"
  else if im.cask ≠ "" then "cask"
  else if im.apt ≠ "" then "apt"
  else if im.dnf ≠ "" then "dnf"
  else if im.uvTool ≠ "" then "uv_tool"
  else if im.cargo ≠ "" then "cargo"
  else if im.goTool ≠ "" then "go_tool"
  else if im.snap.isSome then "snap"
  else if im.flatpak ≠ "" then "flatpak"
  else if im.yay ≠ "" then "yay"
  else if im.ghExtension ≠ "" then "gh_extension"
  else if im.eget ≠ "" then "eget"
  else if im.manual.isSome then "manual"
  else "unknown"

/-- Go `InstallMethod.IsSystemMethod` (packages.go). -/
def InstallMethod.IsSystemMethod (im : InstallMethod) : Bool :=
  let m := im.MethodName
  m = "brew" || m = "cask" || m = "apt" || m = "dnf"

/-- Go `Package` (packages.go): name, description, per-OS-target method map
(as an association list). -/
structure Package where
  name : String
  description : String := ""
  packages : List (String × InstallMethod) := []
deriving Repr, DecidableEq

/-- Go `PackageCatalog` (packages.go). -/
structure PackageCatalog where
  brewTaps : List String := []
  packages : List Package := []
deriving Repr, DecidableEq

/-- Go `InstallResult` (terminal.go): status is one of "ok" (already
installed), "done" (newly installed), "skip", "fail". -/
structure InstallResult where
  name : String
  method : String
  status : String
  error : String := ""
deriving Repr, DecidableEq

/-! ## External-world oracle

Every effect the installer performs (shell commands via `runShellSilent`,
`exec.LookPath`, `os.ReadDir`, `os.Stat`, environment variables, the `gh`
release API) is modelled as a deterministic oracle.  `shell cmd` returns the
combined output and an optional error message, exactly the shape of Go's
`runShellSilent` (detect.go). -/

structure Env where
  /-- `os.Getenv("HOME")`. -/
  home : String
  /-- `os.TempDir()`. -/
  tempDir : String
  /-- `runShellSilent` (detect.go): combined output, optional error text. -/
  shell : String → String × Option String
  /-- `commandExists` (detect.go): `exec.LookPath` success. -/
  commandExists : String → Bool
  /-- `os.ReadDir`: entry names of a directory (empty on error, matching the
  ignored error in the Go code). -/
  readDir : String → List String
  /-- `os.Stat` succeeding with a directory. -/
  statIsDir : String → Bool
  /-- `os.Stat` succeeding with any file. -/
  statExists : String → Bool
  /-- Assets `(name, url)` of the latest release of a GitHub repository, as
  served to the `gh release view --json assets` query. -/
  ghAssets : String → List (String × String)
  /-- Error of the `gh release view` invocation itself for a repository. -/
  ghViewErr : String → Option String

/-- Shell expansion idiom `runShellSilent(fmt.Sprintf("echo %s", s))` followed
by `strings.TrimSpace`, used for `check_dir` / `dest` paths (terminal.go). -/
def expandShell (env : Env) (s : String) : String :=
  goTrimSpace (env.shell ("echo " ++ s)).1

/-! ## Detection cache (`installer/terminal.go`) -/

/-- Go `parseLines` (terminal.go): trimmed, non-empty lines of the output. -/
def parseLines (output : String) : List String :=
  (((output.data.splitOn '\n').map trimChars).filter (fun l => l ≠ [])).map String.mk

/-- Go `parseFirstWord` (terminal.go): first whitespace-delimited token of
each line that has one. -/
def parseFirstWord (output : String) : List String :=
  (output.data.splitOn '\n').filterMap (fun line =>
    match goFields (String.mk line) with
    | [] => none
    | w :: _ => some w)

/-- Go `InstalledCache` (terminal.go): map from method kind to the set of
installed identifiers, modelled as an association list (the mutex is the
sequentialization implicit in explicit state passing). -/
abbrev InstalledCache := List (String × List String)

/-- Go `InstalledCache.get` (terminal.go): return the memoized set for `key`,
or run `loader` once and memoize.  The third component records the keys whose
loader was invoked by this call (`[]` on a cache hit, `[key]` on a miss). -/
def cacheGet (c : InstalledCache) (key : String) (loader : Unit → List String) :
    List String × InstalledCache × List String :=
  match c.lookup key with
  | some v => (v, c, [])
  | none =>
    let v := loader ()
    (v, (key, v) :: c, [key])

/-- One cached-detection branch of `IsInstalled`: fetch the set for `key`
through the cache and apply the branch's membership test. -/
def viaCache (c : InstalledCache) (key : String) (loader : Unit → List String)
    (memOf : List String → Bool) : Bool × InstalledCache × List String :=
  let r := cacheGet c key loader
  (memOf r.1, r.2.1, r.2.2)

/-- The enumeration loader closure passed to `cache.get` for each cached kind
in `PackageInstaller.IsInstalled` (terminal.go), keyed by the cache key used
there. -/
def loaderFor (env : Env) : String → List String
  | "brew" => parseLines (env.shell "brew list --formula -1").1
  | "cask" =>
    let base := parseLines (env.shell "brew list --cask -1").1
    -- also check /Applications and $HOME/Applications
    let apps := (env.readDir "/Applications" ++ env.readDir (env.home ++ "/Applications")).map
      (fun e => goToLower (goReplaceChar ' ' '-' (goTrimSuffix e ".app")))
    base ++ apps
  | "apt" => parseLines (env.shell "dpkg-query -W -f=\x27${Package}\n\x27 2>/dev/null").1
  | "dnf" => parseLines (env.shell "rpm -qa --qf \x27%{NAME}\n\x27").1
  | "uv_tool" => parseFirstWord (env.shell "uv tool list").1
  | "cargo" => parseFirstWord (env.shell "cargo install --list").1
  | "snap" => parseFirstWord (env.shell "snap list 2>/dev/null").1
  | "flatpak" => parseLines (env.shell "flatpak list --columns=application 2>/dev/null").1
  | "yay" => parseLines (env.shell "yay -Qq 2>/dev/null").1
  | "gh_ext" => parseLines (env.shell "gh extension list 2>/dev/null").1
  | _ => []

/-- Scan of `/Applications` and `$HOME/Applications` for a `.app` bundle whose
(lower-cased) name contains the package name, used by the `dmg` branch of
`isManualInstalled` (terminal.go). -/
def appBundleScan (env : Env) (name : String) : Bool :=
  (env.readDir "/Applications" ++ env.readDir (env.home ++ "/Applications")).any
    (fun e => goHasSuffix e ".app" && goContains (goToLower e) (goToLower name))

/-- Go `PackageInstaller.isManualInstalled` (terminal.go).  Note the control
flow: only the `check_command` branch returns unconditionally; the
`check_dir`, `dest` and `dmg` branches return `true` on success and fall
through to the next check on failure, ending at `commandExists name`. -/
def isManualInstalled (env : Env) (name : String) (manual : ManualSpec) : Bool :=
  if manual.checkCommand ≠ "" then env.commandExists manual.checkCommand
  else if manual.checkDir ≠ "" && env.statIsDir (expandShell env manual.checkDir) then true
  else if manual.dest ≠ "" && env.statExists (expandShell env manual.dest) then true
  else if manual.typ = "dmg" && appBundleScan env name then true
  else env.commandExists name

/-- Go `PackageInstaller.IsInstalled` (terminal.go).  Returns the detection
result, the updated cache, and the list of cache keys whose enumeration
loader ran during this call. -/
def IsInstalled (env : Env) (c : InstalledCache) (name : String) (m : InstallMethod) :
    Bool × InstalledCache × List String :=
  match m.MethodName with
  | "brew" => viaCache c "brew" (fun _ => loaderFor env "brew") (fun s => s.contains m.brew)
  | "cask" => viaCache c "cask" (fun _ => loaderFor env "cask") (fun s => s.contains m.cask)
  | "apt" => viaCache c "apt" (fun _ => loaderFor env "apt") (fun s => s.contains m.apt)
  | "dnf" =>
    -- dnf can have multiple packages like "gcc gcc-c++ make"
    viaCache c "dnf" (fun _ => loaderFor env "dnf")
      (fun s => (goFields m.dnf).all (fun p => s.contains p))
  | "uv_tool" => viaCache c "uv_tool" (fun _ => loaderFor env "uv_tool")
      (fun s => s.contains m.uvTool)
  | "cargo" => viaCache c "cargo" (fun _ => loaderFor env "cargo")
      (fun s => s.contains m.cargo)
  | "go_tool" => (env.commandExists (beforeFirstAt (afterLastSlash m.goTool)), c, [])
  | "snap" => viaCache c "snap" (fun _ => loaderFor env "snap")
      (fun s => s.contains (match m.snap with | some sp => sp.name | none => ""))
  | "flatpak" => viaCache c "flatpak" (fun _ => loaderFor env "flatpak")
      (fun s => s.contains m.flatpak)
  | "yay" => viaCache c "yay" (fun _ => loaderFor env "yay")
      (fun s => s.contains m.yay)
  | "gh_extension" => viaCache c "gh_ext" (fun _ => loaderFor env "gh_ext")
      (fun s => s.any (fun entry => goContains entry (afterLastSlash m.ghExtension)))
  | "eget" => (env.commandExists (afterLastSlash m.eget), c, [])
  | "manual" =>
    ((match m.manual with
      | some sp => isManualInstalled env name sp
      | none => false),  -- unreachable: MethodName = "manual" forces `manual` populated
     c, [])
  | _ => (env.commandExists name, c, [])

/-! ## Release-asset resolution and manual installs (`installer/terminal.go`) -/

/-- The `gh release view` command string built by `resolveGhAssetURL`
(terminal.go). -/
def ghReleaseCmd (repo assetPattern : String) : String :=
  "gh release view --repo " ++ repo ++
    " --json assets -q \x27.assets[] | select(.name | endswith(\"" ++ assetPattern ++
    "\")) | .url\x27"

/-- Observable behaviour of the `gh release view … -q …` invocation: the
`jq` filter emits the `url` of every asset whose `name` ends with the
pattern, one per line; the command error is the CLI's own error, if any. -/
def ghQueryRun (env : Env) (repo assetPattern : String) : String × Option String :=
  (String.join (((env.ghAssets repo).filter (fun a => goHasSuffix a.1 assetPattern)).map
      (fun a => a.2 ++ "\n")),
   env.ghViewErr repo)

/-- Go `resolveGhAssetURL` (terminal.go): fail when the `gh` call fails, fail
when the trimmed query output is empty, otherwise return the trimmed output. -/
def resolveGhAssetURL (env : Env) (repo assetPattern : String) : Except String String :=
  let r := ghQueryRun env repo assetPattern
  match r.2 with
  | some e => .error ("gh release view: " ++ e)
  | none =>
    let url := goTrimSpace r.1
    if url = "" then .error ("no asset matching \"" ++ assetPattern ++ "\" in " ++ repo)
    else .ok url

/-- Mount-point parse of `installDmg` (terminal.go): last whitespace field of
the last line of the trimmed `hdiutil` output that contains `/Volumes/`;
empty when no line matches. -/
def findMountPoint (mountOut : String) : String :=
  (goSplitChar '\n' (goTrimSpace mountOut)).foldl
    (fun mp line => if goContains line "/Volumes/" then (goFields line).getLastD "" else mp) ""

/-- The `hdiutil detach` command registered by the `defer` in `installDmg`. -/
def dmgDetachCmd (mountPoint : String) : String :=
  "hdiutil detach -quiet " ++ mountPoint

/-- Go `PackageInstaller.installDmg` (terminal.go).  Returns the error (if
any) and the trace of external commands issued, in order.  The deferred
detach is registered only after the mount point has been determined, so every
return path from that point on ends with the detach command — and the
"could not determine dmg mount point" path does not. -/
def installDmg (env : Env) (manual : ManualSpec) : Option String × List String :=
  let ghCmd := ghReleaseCmd manual.repo manual.assetPattern
  match resolveGhAssetURL env manual.repo manual.assetPattern with
  | .error e => (some e, [ghCmd])
  | .ok url =>
    let tmpFile := env.tempDir ++ "/zebar-install.dmg"
    let dlCmd := "curl -fsSL -o " ++ tmpFile ++ " " ++ url
    match (env.shell dlCmd).2 with
    | some e => (some ("download dmg: " ++ e), [ghCmd, dlCmd])
    | none =>
      let attachCmd := "hdiutil attach -nobrowse -quiet " ++ tmpFile
      let mountRes := env.shell attachCmd
      match mountRes.2 with
      | some e => (some ("mount dmg: " ++ e), [ghCmd, dlCmd, attachCmd])
      | none =>
        let mountPoint := findMountPoint mountRes.1
        if mountPoint = "" then
          (some "could not determine dmg mount point", [ghCmd, dlCmd, attachCmd])
        else
          let detach := dmgDetachCmd mountPoint
          match (env.readDir mountPoint).find? (fun e => goHasSuffix e ".app") with
          | some app =>
            let cpCmd := "cp -R " ++ (mountPoint ++ "/" ++ app) ++ " " ++ ("/Applications/" ++ app)
            (match (env.shell cpCmd).2 with
             | some e => (some ("copy app: " ++ e), [ghCmd, dlCmd, attachCmd, cpCmd, detach])
             | none => (none, [ghCmd, dlCmd, attachCmd, cpCmd, detach]))
          | none => (some "no .app found in dmg", [ghCmd, dlCmd, attachCmd, detach])

/-- Go `PackageInstaller.installDeb` (terminal.go). -/
def installDeb (env : Env) (manual : ManualSpec) : Option String × List String :=
  let ghCmd := ghReleaseCmd manual.repo manual.assetPattern
  match resolveGhAssetURL env manual.repo manual.assetPattern with
  | .error e => (some e, [ghCmd])
  | .ok url =>
    let tmpFile := env.tempDir ++ "/install.deb"
    let dlCmd := "curl -fsSL -o " ++ tmpFile ++ " " ++ url
    match (env.shell dlCmd).2 with
    | some e => (some ("download deb: " ++ e), [ghCmd, dlCmd])
    | none =>
      let instCmd := "sudo dpkg -i " ++ tmpFile
      ((env.shell instCmd).2, [ghCmd, dlCmd, instCmd])

/-- Go `PackageInstaller.installRpm` (terminal.go). -/
def installRpm (env : Env) (manual : ManualSpec) : Option String × List String :=
  let ghCmd := ghReleaseCmd manual.repo manual.assetPattern
  match resolveGhAssetURL env manual.repo manual.assetPattern with
  | .error e => (some e, [ghCmd])
  | .ok url =>
    let tmpFile := env.tempDir ++ "/install.rpm"
    let dlCmd := "curl -fsSL -o " ++ tmpFile ++ " " ++ url
    match (env.shell dlCmd).2 with
    | some e => (some ("download rpm: " ++ e), [ghCmd, dlCmd])
    | none =>
      let instCmd := "sudo dnf install -y " ++ tmpFile
      ((env.shell instCmd).2, [ghCmd, dlCmd, instCmd])

/-- Go `PackageInstaller.installAppImage` (terminal.go). -/
def installAppImage (env : Env) (manual : ManualSpec) : Option String × List String :=
  let ghCmd := ghReleaseCmd manual.repo manual.assetPattern
  match resolveGhAssetURL env manual.repo manual.assetPattern with
  | .error e => (some e, [ghCmd])
  | .ok url =>
    let expanded := expandShell env manual.dest
    let dest := if expanded = "" then
        env.home ++ "/.local/bin/" ++ afterLastSlash manual.repo
      else expanded
    let dlCmd := "curl -fsSL -o " ++ dest ++ " " ++ url
    match (env.shell dlCmd).2 with
    | some e => (some ("download appimage: " ++ e), [ghCmd, dlCmd])
    | none =>
      let chmodCmd := "chmod +x " ++ dest
      ((env.shell chmodCmd).2, [ghCmd, dlCmd, chmodCmd])

/-- Go `PackageInstaller.installManual` (terminal.go). -/
def installManual (env : Env) (name : String) (manual : ManualSpec) :
    Option String × List String :=
  match manual.typ with
  | "script" =>
    let cmd :=
      if manual.args ≠ "" then
        "sh -c \"$(curl -fsSL " ++ manual.url ++ ")\" \"\" " ++ manual.args
      else
        "curl -fsSL " ++ manual.url ++ " | bash"
    ((env.shell cmd).2, [cmd])
  | "git_clone" =>
    let dest := expandShell env manual.dest
    -- os.MkdirAll(filepath.Dir(dest)) is a local filesystem effect, not an
    -- external command, and is not traced
    let cloneCmd := "git clone " ++ manual.url ++ " " ++ dest
    ((env.shell cloneCmd).2, [cloneCmd])
  | "dmg" => installDmg env manual
  | "deb" => installDeb env manual
  | "rpm" => installRpm env manual
  | "appimage" => installAppImage env manual
  | other => (some ("unknown manual type: " ++ other), [])

/-! ## Per-package install dispatch (`installer/terminal.go`) -/

/-- Result of one `PackageInstaller.Install` call: the `InstallResult`, the
updated detection cache, the install-action commands issued (in order), and
the cache keys whose enumeration loader ran during detection. -/
structure InstallStep where
  result : InstallResult
  cache : InstalledCache
  trace : List String
  enums : List String
deriving Repr

/-- Go `PackageInstaller.Install` (terminal.go). -/
def Install (env : Env) (c : InstalledCache) (target : String) (pkg : Package) : InstallStep :=
  match pkg.packages.lookup target with
  | none => ⟨⟨pkg.name, "n/a", "skip", ""⟩, c, [], []⟩
  | some method =>
    let methodName := method.MethodName
    let det := IsInstalled env c pkg.name method
    let c1 := det.2.1
    if det.1 then ⟨⟨pkg.name, methodName, "ok", ""⟩, c1, [], det.2.2⟩
    else
      -- each simple arm issues one shell command; a nonzero exit becomes a
      -- "fail" result carrying the error text, success becomes "done"
      let runArm : List String → String → InstallStep := fun pre cmd =>
        match (env.shell cmd).2 with
        | some e => ⟨⟨pkg.name, methodName, "fail", e⟩, c1, pre ++ [cmd], det.2.2⟩
        | none => ⟨⟨pkg.name, methodName, "done", ""⟩, c1, pre ++ [cmd], det.2.2⟩
      match methodName with
      | "brew" => runArm [] ("zb install " ++ method.brew)
      | "cask" => runArm [] ("brew install --cask " ++ method.cask)
      | "apt" => runArm [] ("sudo apt install -y " ++ method.apt)
      | "dnf" => runArm [] ("sudo dnf install -y " ++ method.dnf)
      | "uv_tool" => runArm [] ("uv tool install " ++ method.uvTool)
      | "cargo" => runArm [] ("cargo install " ++ method.cargo)
      | "go_tool" => runArm [] ("go install " ++ method.goTool)
      | "snap" =>
        let sp := method.snap.getD ⟨"", false⟩  -- `none` unreachable for this arm
        let flag := if sp.classic then " --classic" else ""
        runArm [] ("sudo snap install " ++ sp.name ++ flag)
      | "flatpak" => runArm [] ("flatpak install -y flathub " ++ method.flatpak)
      | "yay" => runArm [] ("yay -S --noconfirm " ++ method.yay)
      | "gh_extension" =>
        if ((env.shell "gh auth status").2).isSome then
          ⟨⟨pkg.name, methodName, "skip", "gh not authenticated"⟩, c1, ["gh auth status"], det.2.2⟩
        else
          runArm ["gh auth status"] ("gh extension install " ++ method.ghExtension)
      | "eget" =>
        -- os.MkdirAll of ~/.local/bin precedes the command; not an external
        -- command, not traced
        runArm [] ("eget " ++ method.eget ++ " --to ~/.local/bin")
      | "manual" =>
        (match method.manual with
         | some sp =>
           let r := installManual env pkg.name sp
           (match r.1 with
            | some e => ⟨⟨pkg.name, methodName, "fail", e⟩, c1, r.2, det.2.2⟩
            | none => ⟨⟨pkg.name, methodName, "done", ""⟩, c1, r.2, det.2.2⟩)
         | none =>  -- unreachable: MethodName = "manual" forces `manual` populated
           ⟨⟨pkg.name, methodName, "fail", "nil manual spec"⟩, c1, [], det.2.2⟩)
      | _ => ⟨⟨pkg.name, methodName, "skip", "unknown method"⟩, c1, [], det.2.2⟩

/-! ## Batched lane (`installer/terminal.go` batch helpers, `installer/app.go`
`stepInstallPackages` phase 2) -/

/-- Go `PackageInstaller.BatchInstallBrew` (terminal.go): no command at all
for an empty list, otherwise one space-joined invocation. -/
def BatchInstallBrew (env : Env) (formulas : List String) : Option String × List String :=
  if formulas.length = 0 then (none, [])
  else
    let cmd := "zb install " ++ String.intercalate " " formulas
    ((env.shell cmd).2, [cmd])

/-- Go `PackageInstaller.BatchInstallCask` (terminal.go). -/
def BatchInstallCask (env : Env) (casks : List String) : Option String × List String :=
  if casks.length = 0 then (none, [])
  else
    let cmd := "brew install --cask " ++ String.intercalate " " casks
    ((env.shell cmd).2, [cmd])

/-- Go `PackageInstaller.BatchInstallApt` (terminal.go). -/
def BatchInstallApt (env : Env) (pkgs : List String) : Option String × List String :=
  if pkgs.length = 0 then (none, [])
  else
    let cmd := "sudo apt install -y " ++ String.intercalate " " pkgs
    ((env.shell cmd).2, [cmd])

/-- Go `PackageInstaller.BatchInstallDnf` (terminal.go). -/
def BatchInstallDnf (env : Env) (pkgs : List String) : Option String × List String :=
  if pkgs.length = 0 then (none, [])
  else
    let cmd := "sudo dnf install -y " ++ String.intercalate " " pkgs
    ((env.shell cmd).2, [cmd])

/-- Accumulator of the "Checking installed packages…" loop in
`App.stepInstallPackages` (app.go): per-kind pending specifier and name
lists, results recorded so far, and the threaded detection cache. -/
structure BatchAcc where
  results : List InstallResult := []
  brewFormulas : List String := []
  brewNames : List String := []
  casks : List String := []
  caskNames : List String := []
  aptPkgs : List String := []
  aptNames : List String := []
  dnfPkgs : List String := []
  dnfNames : List String := []
  cache : InstalledCache := []
deriving Repr

/-- One iteration of the "Checking installed packages…" loop of
`App.stepInstallPackages` phase 2 (app.go): skip non-system methods, record
already-installed packages as "ok" results, and append the rest to their
kind's pending lists. -/
def batchStep (env : Env) (target : String) (acc : BatchAcc) (pkg : Package) : BatchAcc :=
  let method := (pkg.packages.lookup target).getD {}
  if !method.IsSystemMethod then acc
  else
    let det := IsInstalled env acc.cache pkg.name method
    let acc1 := { acc with cache := det.2.1 }
    if det.1 then
      { acc1 with results := acc1.results ++ [⟨pkg.name, method.MethodName, "ok", ""⟩] }
    else
      match method.MethodName with
      | "brew" => { acc1 with brewFormulas := acc1.brewFormulas ++ [method.brew],
                              brewNames := acc1.brewNames ++ [pkg.name] }
      | "cask" => { acc1 with casks := acc1.casks ++ [method.cask],
                              caskNames := acc1.caskNames ++ [pkg.name] }
      | "apt" => { acc1 with aptPkgs := acc1.aptPkgs ++ [method.apt],
                             aptNames := acc1.aptNames ++ [pkg.name] }
      | "dnf" => { acc1 with dnfPkgs := acc1.dnfPkgs ++ [method.dnf],
                             dnfNames := acc1.dnfNames ++ [pkg.name] }
      | _ => acc1  -- unreachable: IsSystemMethod restricts to the four kinds

/-- The partition loop of `App.stepInstallPackages` phase 2 (app.go). -/
def batchScan (env : Env) (target : String) (toInstall : List Package)
    (c : InstalledCache) : BatchAcc :=
  toInstall.foldl (batchStep env target) { cache := c }

/-- One per-kind block of phase 2 (app.go): when the pending list is
non-empty, run the kind's batch installer once and record a "fail" or "done"
result for every pending name (note the Go code attaches no error text). -/
def batchKindStep (kind : String) (run : Option String × List String)
    (specs names : List String) : List InstallResult × List String :=
  if specs.length > 0 then
    (names.map (fun n =>
      if run.1.isSome then InstallResult.mk n kind "fail" ""
      else InstallResult.mk n kind "done" ""), run.2)
  else ([], [])

/-- Phase 2 of `App.stepInstallPackages` (app.go): the batched
system-manager lane.  Returns the recorded results, the final cache, and the
trace of batch install commands issued. -/
def batchLane (env : Env) (c : InstalledCache) (target : String)
    (toInstall : List Package) : List InstallResult × InstalledCache × List String :=
  let acc := batchScan env target toInstall c
  let brewR := batchKindStep "brew" (BatchInstallBrew env acc.brewFormulas)
    acc.brewFormulas acc.brewNames
  let caskR := batchKindStep "cask" (BatchInstallCask env acc.casks)
    acc.casks acc.caskNames
  let aptR := batchKindStep "apt" (BatchInstallApt env acc.aptPkgs)
    acc.aptPkgs acc.aptNames
  let dnfR := batchKindStep "dnf" (BatchInstallDnf env acc.dnfPkgs)
    acc.dnfPkgs acc.dnfNames
  (acc.results ++ brewR.1 ++ caskR.1 ++ aptR.1 ++ dnfR.1,
   acc.cache,
   brewR.2 ++ caskR.2 ++ aptR.2 ++ dnfR.2)

/-- A sequence of detection queries against one installer run (one shared
cache), recording every enumeration-loader invocation.  This models repeated
`IsInstalled` calls within a single run. -/
def runQueries (env : Env) : List (String × InstallMethod) → InstalledCache →
    List Bool × InstalledCache × List String
  | [], c => ([], c, [])
  | (n, m) :: rest, c =>
    let r := IsInstalled env c n m
    let rr := runQueries env rest r.2.1
    (r.1 :: rr.1, rr.2.1, r.2.2 ++ rr.2.2)

/-! ## Catalog loading (`installer/packages.go`)

`LoadPackages` first reads `packages.json` and unmarshals it into
`map[string]json.RawMessage`; file-read and top-level-parse failures are
fatal.  The stages after that top-level parse are modelled here over an
explicit JSON value type (objects are association lists with distinct keys,
which is how `encoding/json` presents an object to the caller). -/

inductive Json where
  | null
  | bool (b : Bool)
  | num (n : Int)
  | str (s : String)
  | arr (elems : List Json)
  | obj (fields : List (String × Json))

/-- Go `json.Unmarshal` into `[]string` (the `_brew_taps` value): `null`
leaves the slice nil, an array of strings succeeds, anything else errors. -/
def jsonStringList : Json → Option (List String)
  | .null => some []
  | .arr xs => xs.mapM (fun j => match j with | .str s => some s | _ => none)
  | _ => none

/-- Go `json.Unmarshal` into an optional string struct field: absent or
`null` leaves the zero value, a string sets it, anything else errors. -/
def jsonStrField (fields : List (String × Json)) (key : String) : Option String :=
  match fields.lookup key with
  | none => some ""
  | some .null => some ""
  | some (.str s) => some s
  | some _ => none

/-- Go `json.Unmarshal` into an optional bool struct field. -/
def jsonBoolField (fields : List (String × Json)) (key : String) : Option Bool :=
  match fields.lookup key with
  | none => some false
  | some .null => some false
  | some (.bool b) => some b
  | some _ => none

/-- Go `SnapSpec.UnmarshalJSON` (packages.go): try as a plain string first,
then as an object with `name` / `classic` fields. -/
def jsonSnapSpec : Json → Option SnapSpec
  | .str s => some ⟨s, false⟩
  | .obj fs => do
    let name ← jsonStrField fs "name"
    let classic ← jsonBoolField fs "classic"
    pure ⟨name, classic⟩
  | _ => none

/-- Go `json.Unmarshal` into `*SnapSpec`: `null` leaves the pointer nil,
otherwise the custom `SnapSpec` unmarshaller decides. -/
def jsonSnapField (fields : List (String × Json)) : Option (Option SnapSpec) :=
  match fields.lookup "snap" with
  | none => some none
  | some .null => some none
  | some j => (jsonSnapSpec j).map some

/-- Go `json.Unmarshal` into `*ManualSpec`: `null` leaves the pointer nil, an
object fills the string fields, anything else errors. -/
def jsonManualField (fields : List (String × Json)) : Option (Option ManualSpec) :=
  match fields.lookup "manual" with
  | none => some none
  | some .null => some none
  | some (.obj fs) => do
    let url ← jsonStrField fs "url"
    let repo ← jsonStrField fs "repo"
    let assetPattern ← jsonStrField fs "asset_pattern"
    let typ ← jsonStrField fs "type"
    let dest ← jsonStrField fs "dest"
    let checkCommand ← jsonStrField fs "check_command"
    let checkDir ← jsonStrField fs "check_dir"
    let args ← jsonStrField fs "args"
    pure (some ⟨url, repo, assetPattern, typ, dest, checkCommand, checkDir, args⟩)
  | some _ => none

/-- Go `json.Unmarshal` of one method value into `InstallMethod`
(packages.go): `null` leaves the zero struct, an object fills the variant
fields, any wrongly-typed field is an error. -/
def jsonInstallMethod : Json → Option InstallMethod
  | .null => some {}
  | .obj fs => do
    let brew ← jsonStrField fs "brew"
    let cask ← jsonStrField fs "cask"
    let apt ← jsonStrField fs "apt"
    let dnf ← jsonStrField fs "dnf"
    let uvTool ← jsonStrField fs "uv_tool"
    let cargo ← jsonStrField fs "cargo"
    let goTool ← jsonStrField fs "go_tool"
    let snap ← jsonSnapField fs
    let flatpak ← jsonStrField fs "flatpak"
    let yay ← jsonStrField fs "yay"
    let ghExtension ← jsonStrField fs "gh_extension"
    let eget ← jsonStrField fs "eget"
    let manual ← jsonManualField fs
    pure ⟨brew, cask, apt, dnf, uvTool, cargo, goTool, snap, flatpak, yay,
          ghExtension, eget, manual⟩
  | _ => none

/-- Go `json.Unmarshal` of one package entry into the anonymous
`{Description string; Packages map[string]json.RawMessage}` struct
(packages.go): result is the description and, when the `packages` key was
present and an object, its raw field list (`none` models the nil map). -/
def jsonEntry : Json → Option (String × Option (List (String × Json)))
  | .null => some ("", none)
  | .obj fs => do
    let descr ← jsonStrField fs "description"
    let ps ← (match fs.lookup "packages" with
      | none => some none
      | some .null => some none
      | some (.obj ps) => some (some ps)
      | some _ => none)
    pure (descr, ps)
  | _ => none

/-- The per-OS-target method map of one entry: methods that fail to parse
are skipped (`continue` in the inner loop of `LoadPackages`). -/
def loadMethods (ps : List (String × Json)) : List (String × InstallMethod) :=
  ps.foldl (fun acc p =>
    match jsonInstallMethod p.2 with
    | none => acc
    | some method => acc ++ [(p.1, method)]) []

/-- The package-entry loop of `LoadPackages` (packages.go).  `none` models
the Go panic on `name[0]` when a key is the empty string; keys starting with
`_` are skipped; entries that fail to unmarshal or have a nil `packages` map
are skipped. -/
def loadEntries : List (String × Json) → Option (List Package)
  | [] => some []
  | (name, rawPkg) :: rest =>
    match name.data with
    | [] => none  -- Go `name[0]` panics (index out of range) on an empty key
    | c :: _ =>
      if c = '_' then loadEntries rest
      else
        match jsonEntry rawPkg with
        | none => loadEntries rest  -- skip malformed entries
        | some (_, none) => loadEntries rest  -- entry.Packages == nil
        | some (descr, some ps) =>
          (loadEntries rest).map (fun tail => ⟨name, descr, loadMethods ps⟩ :: tail)

/-- Insertion of one package into a name-sorted list. -/
def insertByName (p : Package) : List Package → List Package
  | [] => [p]
  | q :: qs => if goStrLt p.name q.name then p :: q :: qs else q :: insertByName p qs

/-- The final `sort.Slice` by name of `LoadPackages` (packages.go), as an
insertion sort (deterministic model of sorting by `Name <`). -/
def sortByName (ps : List Package) : List Package :=
  ps.foldr insertByName []

/-- Go `LoadPackages` (packages.go) after the top-level unmarshal into
`map[string]json.RawMessage`.  A document that is not a JSON object fails the
top-level parse; `null` leaves the map nil, producing an empty catalog.  A
present `_brew_taps` value that does not unmarshal as a string list is a
load error.  The `.error "panic: …"` case models the Go runtime panic on an
empty key. -/
def loadPackagesFromDoc : Json → Except String PackageCatalog
  | .null => .ok {}
  | .obj fields =>
    (match fields.lookup "_brew_taps" with
      | none => Except.ok []
      | some j =>
        match jsonStringList j with
        | some taps => Except.ok taps
        | none => Except.error "parsing _brew_taps").bind
    (fun taps =>
      match loadEntries fields with
      | none => .error "panic: index out of range"
      | some pkgs => .ok ⟨taps, sortByName pkgs⟩)
  | _ => .error "parsing packages.json"

/-- Go `PackageCatalog.FilterForTarget` (packages.go). -/
def FilterForTarget (c : PackageCatalog) (target : String) : List Package :=
  c.packages.filter (fun pkg => (pkg.packages.lookup target).isSome)

/-! ## General lemmas about the detection cache -/

/-- A cache is coherent with the environment when every memoized entry equals
what the corresponding loader would produce.  Every cache reachable in a run
(starting from `NewInstalledCache`, i.e. the empty cache) is coherent. -/
def Coherent (env : Env) (c : InstalledCache) : Prop :=
  ∀ k v, c.lookup k = some v → v = loaderFor env k

theorem coherent_nil (env : Env) : Coherent env [] := by
  intro k v h
  simp [List.lookup] at h

theorem viaCache_fst (env : Env) (c : InstalledCache) (key : String)
    (memOf : List String → Bool) (hc : Coherent env c) :
    (viaCache c key (fun _ => loaderFor env key) memOf).1 = memOf (loaderFor env key) := by
  unfold viaCache cacheGet
  cases h : c.lookup key with
  | none => simp
  | some v => simp [hc key v h]

theorem viaCache_coherent (env : Env) (c : InstalledCache) (key : String)
    (memOf : List String → Bool) (hc : Coherent env c) :
    Coherent env (viaCache c key (fun _ => loaderFor env key) memOf).2.1 := by
  unfold viaCache cacheGet
  cases h : c.lookup key with
  | none =>
    intro k v hkv
    simp only [List.lookup_cons] at hkv
    by_cases hk : (k == key) = true
    · simp [hk] at hkv
      obtain rfl := beq_iff_eq.mp hk
      exact hkv.symm
    · have hk2 : (k == key) = false := by simpa using hk
      simp [hk2] at hkv
      exact hc k v hkv
  | some v => simpa using hc

theorem viaCache_mono (c : InstalledCache) (key : String) (loader : Unit → List String)
    (memOf : List String → Bool) (k : String) (h : (c.lookup k).isSome) :
    ((viaCache c key loader memOf).2.1.lookup k).isSome := by
  unfold viaCache cacheGet
  cases hl : c.lookup key with
  | none =>
    simp only [List.lookup_cons]
    by_cases hk : (k == key) = true <;> simp [hk, h]
  | some v => simpa using h

theorem viaCache_enums (c : InstalledCache) (key : String) (loader : Unit → List String)
    (memOf : List String → Bool) (k : String)
    (h : k ∈ (viaCache c key loader memOf).2.2) :
    c.lookup k = none ∧ ((viaCache c key loader memOf).2.1.lookup k).isSome := by
  unfold viaCache cacheGet at *
  cases hl : c.lookup key with
  | none =>
    rw [hl] at h
    simp at h
    subst h
    simp [hl, List.lookup_cons]
  | some v => simp [hl] at h

theorem viaCache_enums_len (c : InstalledCache) (key : String) (loader : Unit → List String)
    (memOf : List String → Bool) :
    (viaCache c key loader memOf).2.2 = [] ∨ ∃ k, (viaCache c key loader memOf).2.2 = [k] := by
  unfold viaCache cacheGet
  cases hl : c.lookup key with
  | none => exact Or.inr ⟨key, rfl⟩
  | some v => exact Or.inl rfl

/-- The detection verdict does not depend on the cache contents: on any
coherent cache it agrees with detection on a fresh cache. -/
theorem IsInstalled_fst_stable (env : Env) (c : InstalledCache) (n : String)
    (m : InstallMethod) (hc : Coherent env c) :
    (IsInstalled env c n m).1 = (IsInstalled env [] n m).1 := by
  unfold IsInstalled
  split <;>
    simp only [viaCache_fst env c _ _ hc, viaCache_fst env [] _ _ (coherent_nil env)]

theorem IsInstalled_coherent (env : Env) (c : InstalledCache) (n : String)
    (m : InstallMethod) (hc : Coherent env c) :
    Coherent env (IsInstalled env c n m).2.1 := by
  unfold IsInstalled
  split <;> first
  | exact viaCache_coherent env c _ _ hc
  | exact hc

theorem IsInstalled_mono (env : Env) (c : InstalledCache) (n : String)
    (m : InstallMethod) (k : String) (h : (c.lookup k).isSome) :
    (((IsInstalled env c n m).2.1).lookup k).isSome := by
  unfold IsInstalled
  split <;> first
  | exact viaCache_mono c _ _ _ k h
  | exact h

theorem IsInstalled_enums_mem (env : Env) (c : InstalledCache) (n : String)
    (m : InstallMethod) (k : String) (h : k ∈ (IsInstalled env c n m).2.2) :
    c.lookup k = none ∧ (((IsInstalled env c n m).2.1).lookup k).isSome := by
  unfold IsInstalled at *
  revert h
  split <;> first
  | exact viaCache_enums c _ _ _ k
  | (intro h; simp at h)

theorem IsInstalled_enums_shape (env : Env) (c : InstalledCache) (n : String)
    (m : InstallMethod) :
    (IsInstalled env c n m).2.2 = [] ∨ ∃ k, (IsInstalled env c n m).2.2 = [k] := by
  unfold IsInstalled
  split <;> first
  | exact viaCache_enums_len c _ _ _
  | exact Or.inl rfl

/-- Over any sequence of detection queries, each kind's enumeration loader
runs at most once beyond what the starting cache already holds. -/
theorem runQueries_count_le (env : Env) (qs : List (String × InstallMethod)) :
    ∀ (c : InstalledCache) (k : String),
      ((runQueries env qs c).2.2.count k) ≤ if (c.lookup k).isSome then 0 else 1 := by
  induction qs with
  | nil => intro c k; simp [runQueries]
  | cons q rest ih =>
    intro c k
    obtain ⟨n, m⟩ := q
    simp only [runQueries, List.count_append]
    by_cases hk : k ∈ (IsInstalled env c n m).2.2
    · obtain ⟨hnone, hsome⟩ := IsInstalled_enums_mem env c n m k hk
      have hrest := ih (IsInstalled env c n m).2.1 k
      rw [if_pos hsome] at hrest
      have hcount1 : (IsInstalled env c n m).2.2.count k ≤ 1 := by
        rcases IsInstalled_enums_shape env c n m with h | ⟨key, h⟩ <;> simp [h, List.count_cons]
        split <;> simp
      simp [hnone]
      omega
    · have hzero : (IsInstalled env c n m).2.2.count k = 0 := by
        simp [List.count_eq_zero, hk]
      rw [hzero]
      have hrest := ih (IsInstalled env c n m).2.1 k
      by_cases hck : (c.lookup k).isSome
      · rw [if_pos (IsInstalled_mono env c n m k hck)] at hrest
        simpa [hck] using hrest
      · simp only [if_neg hck]
        by_cases h2 : (((IsInstalled env c n m).2.1).lookup k).isSome <;>
          simp [h2] at hrest <;> omega

/-- Starting from the fresh per-run cache, each kind's loader runs at most
once no matter how many packages are queried. -/
theorem runQueries_loader_once (env : Env) (qs : List (String × InstallMethod)) (k : String) :
    (runQueries env qs []).2.2.count k ≤ 1 := by
  have h := runQueries_count_le env qs [] k
  simpa [List.lookup] using h

/-! ## Reference definitions used by the claims

These definitions restate parts of the specification in its own vocabulary
(pending batch lists, manual-detection precedence, well-formed catalog
entries); the claim theorems relate them to the embedded code. -/

/-- Amended description of manual-method detection, following the spec's
clause structure: an explicit check-command is decisive; otherwise the
package counts as installed when any of the remaining probes succeeds
(provided check-directory exists, provided destination exists, dmg bundle
scan hits, or a command named after the package exists). -/
def manualDetectSpec (env : Env) (name : String) (manual : ManualSpec) : Bool :=
  if manual.checkCommand ≠ "" then env.commandExists manual.checkCommand
  else
    (manual.checkDir ≠ "" && env.statIsDir (expandShell env manual.checkDir)) ||
    (manual.dest ≠ "" && env.statExists (expandShell env manual.dest)) ||
    (manual.typ = "dmg" && appBundleScan env name) ||
    env.commandExists name

/-- A string is non-blank when it is non-empty and neither its first nor its
last character is whitespace (true of any URL). -/
def nonBlank (s : String) : Bool :=
  match s.data with
  | [] => false
  | c :: cs => !isSpaceChar c && !isSpaceChar (cs.getLastD c)

/-- The pending specifiers of one native-manager kind: the specifier of every
selected package whose resolved method has that kind and which detection (on
a fresh cache) does not report installed, in selection order. -/
def pendingOf (env : Env) (target kind : String) (field : InstallMethod → String)
    (toInstall : List Package) : List String :=
  (toInstall.filter (fun pkg =>
    ((pkg.packages.lookup target).getD {}).MethodName == kind &&
      !(IsInstalled env [] pkg.name ((pkg.packages.lookup target).getD {})).1)).map
    (fun pkg => field ((pkg.packages.lookup target).getD {}))

/-- The well-formed catalog entries, written from the amended claim's words:
keys not starting with an underscore whose value parses as an entry object
carrying a `packages` object; each entry keeps exactly its parseable
methods. -/
def specCatalogEntries (fields : List (String × Json)) : List Package :=
  fields.filterMap (fun f =>
    match f.1.data with
    | [] => none
    | ch :: _ =>
      if ch = '_' then none
      else
        match jsonEntry f.2 with
        | none => none
        | some (_, none) => none
        | some (descr, some ps) => some ⟨f.1, descr, loadMethods ps⟩)

/-! ## Helper lemmas on trimming and joining -/

theorem dropWhile_forall_of (p : Char → Bool) (l : List Char)
    (h : ∀ x ∈ l.dropWhile p, p x = true) : ∀ x ∈ l, p x = true := by
  intro x hx
  rw [← List.takeWhile_append_dropWhile p l] at hx
  rcases List.mem_append.mp hx with h1 | h2
  · exact List.mem_takeWhile_imp h1
  · exact h x h2

theorem trimChars_eq_nil_iff (l : List Char) :
    trimChars l = [] ↔ ∀ c ∈ l, isSpaceChar c = true := by
  unfold trimChars
  rw [List.reverse_eq_nil_iff, List.dropWhile_eq_nil_iff]
  constructor
  · intro h
    apply dropWhile_forall_of
    intro x hx
    exact h x (List.mem_reverse.mpr hx)
  · intro h x hx
    exact h x ((List.dropWhile_sublist isSpaceChar).subset (List.mem_reverse.mp hx))

theorem trimChars_append_newline (c : Char) (cs : List Char)
    (h1 : isSpaceChar c = false) (h2 : isSpaceChar (cs.getLastD c) = false) :
    trimChars ((c :: cs) ++ ['\n']) = c :: cs := by
  unfold trimChars
  rw [List.cons_append, List.dropWhile_cons, if_neg (by simp [h1])]
  have hrw : (c :: (cs ++ ['\n'])).reverse = '\n' :: (cs.reverse ++ [c]) := by simp
  rw [hrw, List.dropWhile_cons, if_pos (by decide)]
  have hkeep : List.dropWhile isSpaceChar (cs.reverse ++ [c]) = cs.reverse ++ [c] := by
    rcases hrev : cs.reverse with _ | ⟨d, ds⟩
    · simp [h1]
    · have hd : isSpaceChar d = false := by
        have hlast : cs.getLast? = some d := by
          rw [← List.head?_reverse, hrev]
          rfl
        rw [List.getLastD_eq_getLast?, hlast] at h2
        simpa using h2
      simp [List.dropWhile_cons, hd]
  rw [hkeep]
  simp

theorem stringJoin_data (l : List String) :
    (String.join l).data = (l.map String.data).flatten := by
  have h : ∀ (l2 : List String) (acc : String),
      (l2.foldl (· ++ ·) acc).data = acc.data ++ (l2.map String.data).flatten := by
    intro l2
    induction l2 with
    | nil => intro acc; simp
    | cons s rest ih => intro acc; simp [List.foldl_cons, ih, String.data_append]
  simpa [String.join] using h l ""

theorem goTrimSpace_data (s : String) : goTrimSpace s = String.mk (trimChars s.data) := rfl

theorem nonBlank_ne_empty (u : String) (h : nonBlank u = true) : u ≠ "" := by
  intro he
  subst he
  simp [nonBlank] at h


/-! ## Lemmas about the batched lane and the catalog loader -/

theorem batchStep_cache (env : Env) (target : String) (acc : BatchAcc) (pkg : Package) :
    (batchStep env target acc pkg).cache = acc.cache ∨
    (batchStep env target acc pkg).cache =
      (IsInstalled env acc.cache pkg.name ((pkg.packages.lookup target).getD {})).2.1 := by
  unfold batchStep
  dsimp only
  split
  · exact Or.inl rfl
  · split
    · exact Or.inr rfl
    · split <;> exact Or.inr rfl

theorem pendingOf_cons_skip (env : Env) (target kind : String)
    (field : InstallMethod → String) (pkg : Package) (rest : List Package)
    (h : (((pkg.packages.lookup target).getD {}).MethodName == kind &&
      !(IsInstalled env [] pkg.name ((pkg.packages.lookup target).getD {})).1) = false) :
    pendingOf env target kind field (pkg :: rest) = pendingOf env target kind field rest := by
  unfold pendingOf
  rw [List.filter_cons, if_neg (by simp [h])]

theorem pendingOf_cons_take (env : Env) (target kind : String)
    (field : InstallMethod → String) (pkg : Package) (rest : List Package)
    (h : (((pkg.packages.lookup target).getD {}).MethodName == kind &&
      !(IsInstalled env [] pkg.name ((pkg.packages.lookup target).getD {})).1) = true) :
    pendingOf env target kind field (pkg :: rest) =
      field ((pkg.packages.lookup target).getD {}) :: pendingOf env target kind field rest := by
  unfold pendingOf
  rw [List.filter_cons, if_pos (by simp [h])]
  simp

theorem batchFold_lists (env : Env) (target : String) (l : List Package) :
    ∀ acc : BatchAcc, Coherent env acc.cache →
      (l.foldl (batchStep env target) acc).brewFormulas
        = acc.brewFormulas ++ pendingOf env target "brew" (fun m => m.brew) l ∧
      (l.foldl (batchStep env target) acc).casks
        = acc.casks ++ pendingOf env target "cask" (fun m => m.cask) l ∧
      (l.foldl (batchStep env target) acc).aptPkgs
        = acc.aptPkgs ++ pendingOf env target "apt" (fun m => m.apt) l ∧
      (l.foldl (batchStep env target) acc).dnfPkgs
        = acc.dnfPkgs ++ pendingOf env target "dnf" (fun m => m.dnf) l ∧
      Coherent env (l.foldl (batchStep env target) acc).cache := by
  induction l with
  | nil => intro acc hc; simp [pendingOf]; exact hc
  | cons pkg rest ih =>
    intro acc hc
    simp only [List.foldl_cons]
    have hstepcoh : Coherent env (batchStep env target acc pkg).cache := by
      rcases batchStep_cache env target acc pkg with h | h <;> rw [h]
      · exact hc
      · exact IsInstalled_coherent env acc.cache pkg.name _ hc
    by_cases hsys : ((pkg.packages.lookup target).getD {}).IsSystemMethod = true
    · have hdet1 : (IsInstalled env acc.cache pkg.name ((pkg.packages.lookup target).getD {})).1
          = (IsInstalled env [] pkg.name ((pkg.packages.lookup target).getD {})).1 :=
        IsInstalled_fst_stable env acc.cache pkg.name _ hc
      by_cases hinst : (IsInstalled env [] pkg.name ((pkg.packages.lookup target).getD {})).1 = true
      · -- already installed: recorded as an ok result, nothing pending
        have hstep : batchStep env target acc pkg =
            { acc with
              cache := (IsInstalled env acc.cache pkg.name
                ((pkg.packages.lookup target).getD {})).2.1,
              results := acc.results ++
                [⟨pkg.name, ((pkg.packages.lookup target).getD {}).MethodName, "ok", ""⟩] } := by
          simp only [batchStep, hsys, hdet1, hinst]
          simp
        rw [hstep]
        obtain ⟨h1, h2, h3, h4, h5⟩ := ih
          { acc with
            cache := (IsInstalled env acc.cache pkg.name
              ((pkg.packages.lookup target).getD {})).2.1,
            results := acc.results ++
              [⟨pkg.name, ((pkg.packages.lookup target).getD {}).MethodName, "ok", ""⟩] }
          (hstep ▸ hstepcoh)
        rw [pendingOf_cons_skip env target "brew" _ pkg rest (by simp [hinst]),
          pendingOf_cons_skip env target "cask" _ pkg rest (by simp [hinst]),
          pendingOf_cons_skip env target "apt" _ pkg rest (by simp [hinst]),
          pendingOf_cons_skip env target "dnf" _ pkg rest (by simp [hinst])]
        exact ⟨h1, h2, h3, h4, h5⟩
      · have hinst2 : (IsInstalled env [] pkg.name
            ((pkg.packages.lookup target).getD {})).1 = false := by simpa using hinst
        have hkinds := by simpa [InstallMethod.IsSystemMethod] using hsys
        rcases hkinds with ((hk | hk) | hk) | hk
        · -- brew
          have hstep : batchStep env target acc pkg =
              { acc with
                cache := (IsInstalled env acc.cache pkg.name
                  ((pkg.packages.lookup target).getD {})).2.1,
                brewFormulas := acc.brewFormulas ++
                  [((pkg.packages.lookup target).getD {}).brew],
                brewNames := acc.brewNames ++ [pkg.name] } := by
            simp only [batchStep, hsys, hdet1, hinst2, hk]
            simp
          rw [hstep]
          obtain ⟨h1, h2, h3, h4, h5⟩ := ih
            { acc with
              cache := (IsInstalled env acc.cache pkg.name
                ((pkg.packages.lookup target).getD {})).2.1,
              brewFormulas := acc.brewFormulas ++
                [((pkg.packages.lookup target).getD {}).brew],
              brewNames := acc.brewNames ++ [pkg.name] }
            (hstep ▸ hstepcoh)
          rw [pendingOf_cons_take env target "brew" _ pkg rest (by simp [hk, hinst2]),
            pendingOf_cons_skip env target "cask" _ pkg rest (by simp [hk]),
            pendingOf_cons_skip env target "apt" _ pkg rest (by simp [hk]),
            pendingOf_cons_skip env target "dnf" _ pkg rest (by simp [hk])]
          refine ⟨?_, h2, h3, h4, h5⟩
          rw [h1]
          simp
        · -- cask
          have hstep : batchStep env target acc pkg =
              { acc with
                cache := (IsInstalled env acc.cache pkg.name
                  ((pkg.packages.lookup target).getD {})).2.1,
                casks := acc.casks ++ [((pkg.packages.lookup target).getD {}).cask],
                caskNames := acc.caskNames ++ [pkg.name] } := by
            simp only [batchStep, hsys, hdet1, hinst2, hk]
            simp
          rw [hstep]
          obtain ⟨h1, h2, h3, h4, h5⟩ := ih
            { acc with
              cache := (IsInstalled env acc.cache pkg.name
                ((pkg.packages.lookup target).getD {})).2.1,
              casks := acc.casks ++ [((pkg.packages.lookup target).getD {}).cask],
              caskNames := acc.caskNames ++ [pkg.name] }
            (hstep ▸ hstepcoh)
          rw [pendingOf_cons_skip env target "brew" _ pkg rest (by simp [hk]),
            pendingOf_cons_take env target "cask" _ pkg rest (by simp [hk, hinst2]),
            pendingOf_cons_skip env target "apt" _ pkg rest (by simp [hk]),
            pendingOf_cons_skip env target "dnf" _ pkg rest (by simp [hk])]
          refine ⟨h1, ?_, h3, h4, h5⟩
          rw [h2]
          simp
        · -- apt
          have hstep : batchStep env target acc pkg =
              { acc with
                cache := (IsInstalled env acc.cache pkg.name
                  ((pkg.packages.lookup target).getD {})).2.1,
                aptPkgs := acc.aptPkgs ++ [((pkg.packages.lookup target).getD {}).apt],
                aptNames := acc.aptNames ++ [pkg.name] } := by
            simp only [batchStep, hsys, hdet1, hinst2, hk]
            simp
          rw [hstep]
          obtain ⟨h1, h2, h3, h4, h5⟩ := ih
            { acc with
              cache := (IsInstalled env acc.cache pkg.name
                ((pkg.packages.lookup target).getD {})).2.1,
              aptPkgs := acc.aptPkgs ++ [((pkg.packages.lookup target).getD {}).apt],
              aptNames := acc.aptNames ++ [pkg.name] }
            (hstep ▸ hstepcoh)
          rw [pendingOf_cons_skip env target "brew" _ pkg rest (by simp [hk]),
            pendingOf_cons_skip env target "cask" _ pkg rest (by simp [hk]),
            pendingOf_cons_take env target "apt" _ pkg rest (by simp [hk, hinst2]),
            pendingOf_cons_skip env target "dnf" _ pkg rest (by simp [hk])]
          refine ⟨h1, h2, ?_, h4, h5⟩
          rw [h3]
          simp
        · -- dnf
          have hstep : batchStep env target acc pkg =
              { acc with
                cache := (IsInstalled env acc.cache pkg.name
                  ((pkg.packages.lookup target).getD {})).2.1,
                dnfPkgs := acc.dnfPkgs ++ [((pkg.packages.lookup target).getD {}).dnf],
                dnfNames := acc.dnfNames ++ [pkg.name] } := by
            simp only [batchStep, hsys, hdet1, hinst2, hk]
            simp
          rw [hstep]
          obtain ⟨h1, h2, h3, h4, h5⟩ := ih
            { acc with
              cache := (IsInstalled env acc.cache pkg.name
                ((pkg.packages.lookup target).getD {})).2.1,
              dnfPkgs := acc.dnfPkgs ++ [((pkg.packages.lookup target).getD {}).dnf],
              dnfNames := acc.dnfNames ++ [pkg.name] }
            (hstep ▸ hstepcoh)
          rw [pendingOf_cons_skip env target "brew" _ pkg rest (by simp [hk]),
            pendingOf_cons_skip env target "cask" _ pkg rest (by simp [hk]),
            pendingOf_cons_skip env target "apt" _ pkg rest (by simp [hk]),
            pendingOf_cons_take env target "dnf" _ pkg rest (by simp [hk, hinst2])]
          refine ⟨h1, h2, h3, ?_, h5⟩
          rw [h4]
          simp
    · -- not a system method: the step is a no-op and no kind matches
      have hstep : batchStep env target acc pkg = acc := by
        simp only [batchStep]
        have hns : (!((pkg.packages.lookup target).getD {}).IsSystemMethod) = true := by
          simpa using hsys
        simp [hns]
      have hnk : ∀ kind, kind = "brew" ∨ kind = "cask" ∨ kind = "apt" ∨ kind = "dnf" →
          (((pkg.packages.lookup target).getD {}).MethodName == kind) = false := by
        intro kind hkor
        apply Bool.eq_false_iff.mpr
        intro hx
        apply hsys
        rcases hkor with h | h | h | h <;>
          simp [InstallMethod.IsSystemMethod, beq_iff_eq.mp hx, h]
      rw [hstep]
      obtain ⟨h1, h2, h3, h4, h5⟩ := ih acc hc
      rw [pendingOf_cons_skip env target "brew" _ pkg rest (by simp [hnk "brew" (Or.inl rfl)]),
        pendingOf_cons_skip env target "cask" _ pkg rest
          (by simp [hnk "cask" (Or.inr (Or.inl rfl))]),
        pendingOf_cons_skip env target "apt" _ pkg rest
          (by simp [hnk "apt" (Or.inr (Or.inr (Or.inl rfl)))]),
        pendingOf_cons_skip env target "dnf" _ pkg rest
          (by simp [hnk "dnf" (Or.inr (Or.inr (Or.inr rfl)))])]
      exact ⟨h1, h2, h3, h4, h5⟩

theorem loadEntries_eq (fields : List (String × Json))
    (hk : ∀ f ∈ fields, f.1 ≠ "") :
    loadEntries fields = some (specCatalogEntries fields) := by
  induction fields with
  | nil => rfl
  | cons f rest ih =>
    have hne : f.1 ≠ "" := hk f (List.mem_cons_self f rest)
    have hrest := ih (fun g hg => hk g (List.mem_cons_of_mem f hg))
    obtain ⟨name, rawPkg⟩ := f
    rcases hd : name.data with _ | ⟨ch, cs⟩
    · exfalso
      apply hne
      show name = ""
      have heta : name = String.mk name.data := rfl
      rw [heta, hd]
    · unfold loadEntries specCatalogEntries
      rw [List.filterMap_cons]
      simp only [hd]
      by_cases hch : ch = '_'
      · simp only [hch, if_pos rfl]
        simpa [specCatalogEntries] using hrest
      · rw [if_neg hch, if_neg hch]
        rcases he : jsonEntry rawPkg with _ | ⟨descr, ps⟩
        · simpa [specCatalogEntries] using hrest
        · rcases ps with _ | ps
          · simpa [specCatalogEntries] using hrest
          · rw [hrest]
            simp [specCatalogEntries]

/-! ## Concrete oracle environments used by the claims -/

/-- Neutral oracle: every command succeeds with empty output, nothing is on
the PATH, every directory is empty, no release has assets. -/
def emptyEnv : Env where
  home := "/home/u"
  tempDir := "/tmp"
  shell := fun _ => ("", none)
  commandExists := fun _ => false
  readDir := fun _ => []
  statIsDir := fun _ => false
  statExists := fun _ => false
  ghAssets := fun _ => []
  ghViewErr := fun _ => none

/-- Oracle in which every enumeration command reports exactly the two lines
`foo` and `bar`. -/
def fooBarEnv : Env :=
  { emptyEnv with shell := fun _ => ("foo\nbar\n", none) }

theorem fooBar_brew_iff (spec : String) :
    (IsInstalled fooBarEnv [] "pkg" { brew := spec }).1 = true ↔ spec = "foo" ∨ spec = "bar" := by
  by_cases hs : spec = ""
  · subst hs; decide
  · have hm : (InstallMethod.MethodName { brew := spec }) = "brew" := by
      simp [InstallMethod.MethodName, hs]
    have hload : loaderFor fooBarEnv "brew" = ["foo", "bar"] := by decide
    simp only [IsInstalled, hm, viaCache, cacheGet, List.lookup]
    simp [hload]

theorem fooBar_cask_iff (spec : String) :
    (IsInstalled fooBarEnv [] "pkg" { cask := spec }).1 = true ↔ spec = "foo" ∨ spec = "bar" := by
  by_cases hs : spec = ""
  · subst hs; decide
  · have hm : (InstallMethod.MethodName { cask := spec }) = "cask" := by
      simp [InstallMethod.MethodName, hs]
    have hload : loaderFor fooBarEnv "cask" = ["foo", "bar"] := by decide
    simp only [IsInstalled, hm, viaCache, cacheGet, List.lookup]
    simp [hload]

theorem fooBar_apt_iff (spec : String) :
    (IsInstalled fooBarEnv [] "pkg" { apt := spec }).1 = true ↔ spec = "foo" ∨ spec = "bar" := by
  by_cases hs : spec = ""
  · subst hs; decide
  · have hm : (InstallMethod.MethodName { apt := spec }) = "apt" := by
      simp [InstallMethod.MethodName, hs]
    have hload : loaderFor fooBarEnv "apt" = ["foo", "bar"] := by decide
    simp only [IsInstalled, hm, viaCache, cacheGet, List.lookup]
    simp [hload]

theorem fooBar_flatpak_iff (spec : String) :
    (IsInstalled fooBarEnv [] "pkg" { flatpak := spec }).1 = true ↔
      spec = "foo" ∨ spec = "bar" := by
  by_cases hs : spec = ""
  · subst hs; decide
  · have hm : (InstallMethod.MethodName { flatpak := spec }) = "flatpak" := by
      simp [InstallMethod.MethodName, hs]
    have hload : loaderFor fooBarEnv "flatpak" = ["foo", "bar"] := by decide
    simp only [IsInstalled, hm, viaCache, cacheGet, List.lookup]
    simp [hload]

theorem fooBar_yay_iff (spec : String) :
    (IsInstalled fooBarEnv [] "pkg" { yay := spec }).1 = true ↔ spec = "foo" ∨ spec = "bar" := by
  by_cases hs : spec = ""
  · subst hs; decide
  · have hm : (InstallMethod.MethodName { yay := spec }) = "yay" := by
      simp [InstallMethod.MethodName, hs]
    have hload : loaderFor fooBarEnv "yay" = ["foo", "bar"] := by decide
    simp only [IsInstalled, hm, viaCache, cacheGet, List.lookup]
    simp [hload]

/-! ## Claim C1 -/

/-- C1 (counterexample): `gh_extension` is a line-oriented kind (its cache is
built with `parseLines`), the enumeration reports exactly `foo` and `bar`,
yet the name `fo` — which is not one of the enumerated names — is reported
installed, because the gh-extension membership test is a substring scan.
This refutes "every other name is reported not installed" for every
line-oriented kind. -/
theorem C1_line_cache_counterexample :
    fooBarEnv.shell "gh extension list 2>/dev/null" = ("foo\nbar\n", none) ∧
    "fo" ∉ parseLines "foo\nbar\n" ∧
    (IsInstalled fooBarEnv [] "pkg" { ghExtension := "fo" }).1 = true :=
  ⟨rfl, by decide, by decide⟩

/-- C1 (amended): when the enumeration output is `"foo\nbar\n"`, every
whole-line-lookup kind (brew, cask with empty application directories, apt,
flatpak, yay) reports exactly `foo` and `bar` installed and any other
specifier not installed; and over any sequence of detection queries in one
run, each kind's enumeration loader is invoked at most once.  (The dnf kind
instead requires every whitespace token present — claim C2 — and the
gh-extension kind matches by substring — see the counterexample.) -/
theorem C1_line_cache_amended :
    (∀ spec : String,
      ((IsInstalled fooBarEnv [] "pkg" { brew := spec }).1 = true ↔
        spec = "foo" ∨ spec = "bar")) ∧
    (∀ spec : String,
      ((IsInstalled fooBarEnv [] "pkg" { cask := spec }).1 = true ↔
        spec = "foo" ∨ spec = "bar")) ∧
    (∀ spec : String,
      ((IsInstalled fooBarEnv [] "pkg" { apt := spec }).1 = true ↔
        spec = "foo" ∨ spec = "bar")) ∧
    (∀ spec : String,
      ((IsInstalled fooBarEnv [] "pkg" { flatpak := spec }).1 = true ↔
        spec = "foo" ∨ spec = "bar")) ∧
    (∀ spec : String,
      ((IsInstalled fooBarEnv [] "pkg" { yay := spec }).1 = true ↔
        spec = "foo" ∨ spec = "bar")) ∧
    (∀ (env : Env) (qs : List (String × InstallMethod)) (k : String),
      (runQueries env qs []).2.2.count k ≤ 1) :=
  ⟨fooBar_brew_iff, fooBar_cask_iff, fooBar_apt_iff, fooBar_flatpak_iff, fooBar_yay_iff,
   fun env qs k => runQueries_loader_once env qs k⟩

/-! ## Claim C2 -/

/-- C2: a dnf method with a compound specifier is reported installed exactly
when every whitespace-separated constituent is present in the enumerated
installed set, and an environment whose enumeration lacks any one
constituent reports the package not installed. -/
theorem C2_dnf_compound_all_tokens (env : Env) (c : InstalledCache) (name : String)
    (m : InstallMethod) (hm : m.MethodName = "dnf") (hc : Coherent env c) :
    ((IsInstalled env c name m).1 = true ↔
      ∀ p ∈ goFields m.dnf, p ∈ loaderFor env "dnf") ∧
    (∀ p, p ∈ goFields m.dnf → p ∉ loaderFor env "dnf" →
      (IsInstalled env c name m).1 = false) := by
  have h1 : (IsInstalled env c name m).1 =
      (goFields m.dnf).all (fun p => (loaderFor env "dnf").contains p) := by
    simp only [IsInstalled, hm]
    exact viaCache_fst env c "dnf" _ hc
  constructor
  · rw [h1]
    simp [List.all_eq_true]
  · intro p hp hnp
    rw [h1, Bool.eq_false_iff]
    simp only [ne_eq, List.all_eq_true]
    intro hall
    exact hnp (by simpa using hall p hp)

/-- Oracle whose rpm enumeration reports gcc, gcc-c++ and make. -/
def dnfFullEnv : Env :=
  { emptyEnv with shell := fun _ => ("gcc\ngcc-c++\nmake\n", none) }

/-- Oracle whose rpm enumeration lacks gcc-c++. -/
def dnfMissingEnv : Env :=
  { emptyEnv with shell := fun _ => ("gcc\nmake\n", none) }

theorem C2_dnf_compound_all_tokens_witness :
    (IsInstalled dnfFullEnv [] "build-essential" { dnf := "gcc gcc-c++ make" }).1 = true ∧
    (IsInstalled dnfMissingEnv [] "build-essential" { dnf := "gcc gcc-c++ make" }).1 = false := by
  constructor
  · exact ((C2_dnf_compound_all_tokens dnfFullEnv [] "build-essential"
      { dnf := "gcc gcc-c++ make" } (by decide) (coherent_nil _)).1).mpr (by decide)
  · exact (C2_dnf_compound_all_tokens dnfMissingEnv [] "build-essential"
      { dnf := "gcc gcc-c++ make" } (by decide) (coherent_nil _)).2 "gcc-c++"
      (by decide) (by decide)

/-! ## Claim C3 -/

/-- C3: starting from any coherent cache, the batched lane issues, per
native-manager kind, exactly one install invocation whose argument is the
space-join of all pending (selected and not-already-installed) specifiers of
that kind, and no invocation at all for a kind with nothing pending. -/
theorem C3_batch_single_invocation (env : Env) (c : InstalledCache) (target : String)
    (toInstall : List Package) (hc : Coherent env c) :
    (batchLane env c target toInstall).2.2 =
      (if pendingOf env target "brew" (fun m => m.brew) toInstall = [] then []
       else ["zb install " ++ String.intercalate " "
         (pendingOf env target "brew" (fun m => m.brew) toInstall)]) ++
      (if pendingOf env target "cask" (fun m => m.cask) toInstall = [] then []
       else ["brew install --cask " ++ String.intercalate " "
         (pendingOf env target "cask" (fun m => m.cask) toInstall)]) ++
      (if pendingOf env target "apt" (fun m => m.apt) toInstall = [] then []
       else ["sudo apt install -y " ++ String.intercalate " "
         (pendingOf env target "apt" (fun m => m.apt) toInstall)]) ++
      (if pendingOf env target "dnf" (fun m => m.dnf) toInstall = [] then []
       else ["sudo dnf install -y " ++ String.intercalate " "
         (pendingOf env target "dnf" (fun m => m.dnf) toInstall)]) := by
  obtain ⟨h1, h2, h3, h4, h5⟩ := batchFold_lists env target toInstall { cache := c } hc
  have e1 : (batchScan env target toInstall c).brewFormulas
      = pendingOf env target "brew" (fun m => m.brew) toInstall := by
    simpa [batchScan] using h1
  have e2 : (batchScan env target toInstall c).casks
      = pendingOf env target "cask" (fun m => m.cask) toInstall := by
    simpa [batchScan] using h2
  have e3 : (batchScan env target toInstall c).aptPkgs
      = pendingOf env target "apt" (fun m => m.apt) toInstall := by
    simpa [batchScan] using h3
  have e4 : (batchScan env target toInstall c).dnfPkgs
      = pendingOf env target "dnf" (fun m => m.dnf) toInstall := by
    simpa [batchScan] using h4
  by_cases hb : pendingOf env target "brew" (fun m => m.brew) toInstall = [] <;>
  by_cases hca : pendingOf env target "cask" (fun m => m.cask) toInstall = [] <;>
  by_cases hap : pendingOf env target "apt" (fun m => m.apt) toInstall = [] <;>
  by_cases hdn : pendingOf env target "dnf" (fun m => m.dnf) toInstall = [] <;>
    simp [batchLane, batchKindStep, BatchInstallBrew, BatchInstallCask,
      BatchInstallApt, BatchInstallDnf, e1, e2, e3, e4, hb, hca, hap, hdn,
      List.length_eq_zero, List.length_pos]

/-- Oracle in which brew reports only `git` installed. -/
def batchEnv : Env :=
  { emptyEnv with shell := fun cmd =>
      if cmd = "brew list --formula -1" then ("git\n", none) else ("", none) }

/-- A selection with three brew packages (one already installed), one cask
package, one secondary (uv_tool) package and none for apt or dnf. -/
def batchPkgs : List Package :=
  [⟨"git", "", [("darwin", { brew := "git" })]⟩,
   ⟨"ripgrep", "", [("darwin", { brew := "ripgrep" })]⟩,
   ⟨"jq", "", [("darwin", { brew := "jq" })]⟩,
   ⟨"raycast", "", [("darwin", { cask := "raycast" })]⟩,
   ⟨"uv", "", [("darwin", { uvTool := "uv" })]⟩]

theorem C3_batch_single_invocation_witness :
    (batchLane batchEnv [] "darwin" batchPkgs).2.2 =
      ["zb install ripgrep jq", "brew install --cask raycast"] := by
  rw [C3_batch_single_invocation batchEnv [] "darwin" batchPkgs (coherent_nil _)]
  decide

/-! ## Claim C4 -/

/-- Oracle for the C4 counterexample: the shell expands the path, the
directory does not exist, but the package's own name is on the PATH. -/
def manualEnv : Env :=
  { emptyEnv with
    shell := fun cmd =>
      if cmd = "echo /opt/tool" then ("/opt/tool\n", none) else ("", none),
    commandExists := fun _ => true }

/-- C4 (counterexample): a manual method that provides a check-directory
which does not exist is still reported installed, because the code falls
through to the command-existence check on the package name; the result is
not "exactly the existence of that directory". -/
theorem C4_manual_detection_counterexample :
    manualEnv.statIsDir (expandShell manualEnv "/opt/tool") = false ∧
    isManualInstalled manualEnv "tool" { typ := "script", checkDir := "/opt/tool" } = true := by
  exact ⟨by decide, by decide⟩

/-- C4 (amended): manual detection gives an explicit check-command absolute
precedence; each of the remaining probes (check-directory, destination path,
dmg application-bundle scan) reports installed when it succeeds but falls
through when it fails, finishing with a command-existence check on the
package's own name. -/
theorem C4_manual_detection_amended (env : Env) (name : String) (manual : ManualSpec) :
    isManualInstalled env name manual = manualDetectSpec env name manual := by
  unfold isManualInstalled manualDetectSpec
  by_cases hA : manual.checkCommand ≠ ""
  · simp [hA]
  · simp [hA, Bool.or_assoc]

/-! ## Claim C5 -/

/-- Oracle whose latest release carries two assets matching `.tar.gz`. -/
def twoAssetEnv : Env :=
  { emptyEnv with ghAssets := fun _ => [("a-x64.tar.gz", "u1"), ("a-arm64.tar.gz", "u2")] }

/-- C5 (counterexample): with two assets matching the suffix pattern,
`resolveGhAssetURL` does not return an error; it returns the newline-joined
pair of URLs as a single "url" string. -/
theorem C5_asset_resolution_counterexample :
    ((twoAssetEnv.ghAssets "o/r").filter (fun a => goHasSuffix a.1 ".tar.gz")).length = 2 ∧
    resolveGhAssetURL twoAssetEnv "o/r" ".tar.gz" = .ok "u1\nu2" :=
  ⟨by decide, by rfl⟩

/-- C5 (amended): when the `gh` call itself succeeds, resolution fails
exactly on zero matching assets; with exactly one matching asset it returns
that asset's URL; and with one or more matching assets (all with non-blank
URLs) it never returns an error — ambiguity is not detected. -/
theorem C5_asset_resolution_amended (env : Env) (repo pat : String)
    (hgh : env.ghViewErr repo = none) :
    (((env.ghAssets repo).filter (fun a => goHasSuffix a.1 pat)) = [] →
      resolveGhAssetURL env repo pat =
        .error ("no asset matching \"" ++ pat ++ "\" in " ++ repo)) ∧
    (∀ nm u, ((env.ghAssets repo).filter (fun a => goHasSuffix a.1 pat)) = [(nm, u)] →
      nonBlank u = true → resolveGhAssetURL env repo pat = .ok u) ∧
    (((env.ghAssets repo).filter (fun a => goHasSuffix a.1 pat)) ≠ [] →
      (∀ a ∈ (env.ghAssets repo).filter (fun a => goHasSuffix a.1 pat), nonBlank a.2 = true) →
      ∃ u2, resolveGhAssetURL env repo pat = .ok u2) := by
  refine ⟨?_, ?_, ?_⟩
  · intro hfil
    unfold resolveGhAssetURL ghQueryRun
    rw [hfil, hgh]
    rfl
  · intro nm u hfil hnb
    unfold resolveGhAssetURL ghQueryRun
    rw [hfil, hgh]
    have hurl : goTrimSpace (String.join ([(nm, u)].map (fun a => a.2 ++ "\n"))) = u := by
      rw [goTrimSpace_data, stringJoin_data]
      simp only [List.map_map, List.map_cons, List.map_nil, List.flatten]
      unfold nonBlank at hnb
      rcases hu : u.data with _ | ⟨c, cs⟩
      · rw [hu] at hnb; simp at hnb
      · rw [hu] at hnb
        simp only [Bool.and_eq_true, Bool.not_eq_true'] at hnb
        simp only [Function.comp, String.data_append]
        rw [List.append_nil, hu, trimChars_append_newline c cs hnb.1 hnb.2, ← hu]
    simp only [hurl]
    rw [if_neg (nonBlank_ne_empty u hnb)]
  · intro hfil hnb
    rcases hx : (env.ghAssets repo).filter (fun a => goHasSuffix a.1 pat) with _ | ⟨x, xs⟩
    · exact absurd hx hfil
    · unfold resolveGhAssetURL ghQueryRun
      rw [hx, hgh]
      have hxnb : nonBlank x.2 = true := hnb x (hx ▸ List.mem_cons_self x xs)
      have hne : goTrimSpace (String.join ((x :: xs).map (fun a => a.2 ++ "\n"))) ≠ "" := by
        rw [goTrimSpace_data, stringJoin_data]
        intro he
        have hdata : trimChars
            (((x :: xs).map (fun a => a.2 ++ "\n")).map String.data).flatten = [] := by
          have := congrArg String.data he
          simpa using this
        rw [trimChars_eq_nil_iff] at hdata
        unfold nonBlank at hxnb
        rcases hu : x.2.data with _ | ⟨c, cs⟩
        · rw [hu] at hxnb; simp at hxnb
        · rw [hu] at hxnb
          simp only [Bool.and_eq_true, Bool.not_eq_true'] at hxnb
          have hcmem : c ∈ (((x :: xs).map (fun a => a.2 ++ "\n")).map String.data).flatten := by
            simp only [List.map_cons, List.map_map, String.data_append]
            apply List.mem_flatten.mpr
            refine ⟨x.2.data ++ String.data "\n", by simp [Function.comp], ?_⟩
            rw [hu]
            exact List.mem_append_left _ (List.mem_cons_self c cs)
          have := hdata c hcmem
          rw [hxnb.1] at this
          exact Bool.false_ne_true this
      simp only []
      rw [if_neg hne]
      exact ⟨_, rfl⟩

/-- Oracle whose latest release carries one asset matching `.tar.gz`. -/
def oneAssetEnv : Env :=
  { emptyEnv with ghAssets := fun _ => [("tool-linux.tar.gz", "https://x/1")] }

theorem C5_asset_resolution_amended_witness :
    resolveGhAssetURL oneAssetEnv "o/r" ".tar.gz" = .ok "https://x/1" ∧
    resolveGhAssetURL oneAssetEnv "o/r" ".zip" =
      .error "no asset matching \".zip\" in o/r" := by
  constructor
  · exact (C5_asset_resolution_amended oneAssetEnv "o/r" ".tar.gz" rfl).2.1
      "tool-linux.tar.gz" "https://x/1" (by decide) (by decide)
  · exact (C5_asset_resolution_amended oneAssetEnv "o/r" ".zip" rfl).1 (by decide)

/-! ## Claim C6 -/

/-- Oracle for the C6 counterexample: the mount command succeeds but its
output contains no `/Volumes/` line, so no mount point can be parsed. -/
def dmgNoVolumeEnv : Env :=
  { emptyEnv with
    ghAssets := fun _ => [("Tool.dmg", "https://x/Tool.dmg")],
    shell := fun cmd =>
      if cmd = "hdiutil attach -nobrowse -quiet /tmp/zebar-install.dmg" then ("ok", none)
      else ("", none) }

/-- C6 (counterexample): the disk image is successfully mounted (`hdiutil
attach` reports no error), yet no detach command is ever issued, because the
mount-point parse fails and the function returns before the deferred detach
is registered. -/
theorem C6_dmg_detach_counterexample :
    (dmgNoVolumeEnv.shell "hdiutil attach -nobrowse -quiet /tmp/zebar-install.dmg").2 = none ∧
    installDmg dmgNoVolumeEnv { repo := "o/r", assetPattern := ".dmg", typ := "dmg" } =
      (some "could not determine dmg mount point",
       [ghReleaseCmd "o/r" ".dmg",
        "curl -fsSL -o /tmp/zebar-install.dmg https://x/Tool.dmg",
        "hdiutil attach -nobrowse -quiet /tmp/zebar-install.dmg"]) ∧
    (∀ cmd ∈ (installDmg dmgNoVolumeEnv
        { repo := "o/r", assetPattern := ".dmg", typ := "dmg" }).2,
      goContains cmd "hdiutil detach" = false) :=
  ⟨rfl, by rfl, by decide⟩

/-- C6 (amended): whenever the download and mount steps succeed AND a mount
point is determined from the mount output, the detach command for that mount
point is part of the executed command trace — on the successful-copy path,
the failed-copy path, and the no-bundle-found path alike.  (When no mount
point can be determined, the function errors without detaching — see the
counterexample.) -/
theorem C6_dmg_detach_amended (env : Env) (manual : ManualSpec) (url : String)
    (hres : resolveGhAssetURL env manual.repo manual.assetPattern = .ok url)
    (hdl : (env.shell ("curl -fsSL -o " ++ (env.tempDir ++ "/zebar-install.dmg") ++ " " ++ url)).2
      = none)
    (hmt : (env.shell ("hdiutil attach -nobrowse -quiet " ++
      (env.tempDir ++ "/zebar-install.dmg"))).2 = none)
    (hmp : findMountPoint
      (env.shell ("hdiutil attach -nobrowse -quiet " ++ (env.tempDir ++ "/zebar-install.dmg"))).1
      ≠ "") :
    dmgDetachCmd (findMountPoint
      (env.shell ("hdiutil attach -nobrowse -quiet " ++ (env.tempDir ++ "/zebar-install.dmg"))).1)
      ∈ (installDmg env manual).2 := by
  unfold installDmg
  rw [hres]
  simp only [hdl, hmt]
  rw [if_neg hmp]
  rcases hfind : (env.readDir (findMountPoint
      (env.shell ("hdiutil attach -nobrowse -quiet " ++
        (env.tempDir ++ "/zebar-install.dmg"))).1)).find?
      (fun e => goHasSuffix e ".app") with _ | app
  · simp [hfind]
  · simp only [hfind]
    rcases (env.shell _).2 with _ | e <;> simp

/-- Oracle for the C6 witness: mount reports `/Volumes/Tool`, the volume
contains `Tool.app`, and the copy step fails. -/
def dmgCopyFailEnv : Env :=
  { emptyEnv with
    ghAssets := fun _ => [("Tool.dmg", "https://x/Tool.dmg")],
    readDir := fun d => if d = "/Volumes/Tool" then ["Tool.app"] else [],
    shell := fun cmd =>
      if cmd = "hdiutil attach -nobrowse -quiet /tmp/zebar-install.dmg" then
        ("/dev/disk2s1 Apple_HFS /Volumes/Tool\n", none)
      else if cmd = "cp -R /Volumes/Tool/Tool.app /Applications/Tool.app" then
        ("", some "cp: failed")
      else ("", none) }

theorem C6_dmg_detach_amended_witness :
    (dmgCopyFailEnv.shell "cp -R /Volumes/Tool/Tool.app /Applications/Tool.app").2
      = some "cp: failed" ∧
    dmgDetachCmd "/Volumes/Tool" ∈
      (installDmg dmgCopyFailEnv { repo := "o/r", assetPattern := ".dmg", typ := "dmg" }).2 := by
  refine ⟨rfl, ?_⟩
  have hmpe : findMountPoint
      (dmgCopyFailEnv.shell ("hdiutil attach -nobrowse -quiet " ++
        (dmgCopyFailEnv.tempDir ++ "/zebar-install.dmg"))).1 = "/Volumes/Tool" := by decide
  have h := C6_dmg_detach_amended dmgCopyFailEnv
    { repo := "o/r", assetPattern := ".dmg", typ := "dmg" } "https://x/Tool.dmg"
    rfl rfl rfl (by rw [hmpe]; decide)
  rw [hmpe] at h
  exact h

/-! ## Claim C8 -/

/-- C8 (counterexample): a document that parses as a JSON object whose
`_brew_taps` value is not an array of strings makes the load return an
error, refuting "only a missing or top-level-unparseable catalog file makes
LoadPackages return an error". -/
theorem C8_catalog_load_counterexample :
    loadPackagesFromDoc (.obj [("_brew_taps", .num 5)]) = .error "parsing _brew_taps" := by
  rfl

/-- C8 (amended): for a catalog document parsed as a JSON object with
non-empty keys, the load succeeds exactly when the `_brew_taps` value (if
present) unmarshals as a string list; on success the returned packages are
precisely the name-sorted well-formed entries — entries that fail to parse
or lack a `packages` object are skipped, and within a kept entry each
unparseable method value is skipped individually. -/
theorem C8_catalog_load_amended (fields : List (String × Json))
    (hkeys : ∀ f ∈ fields, f.1 ≠ "") :
    ((∃ cat, loadPackagesFromDoc (.obj fields) = .ok cat) ↔
      (match fields.lookup "_brew_taps" with
       | none => True
       | some j => (jsonStringList j).isSome = true)) ∧
    (∀ cat, loadPackagesFromDoc (.obj fields) = .ok cat →
      cat.packages = sortByName (specCatalogEntries fields) ∧
      (match fields.lookup "_brew_taps" with
       | none => cat.brewTaps = []
       | some j => jsonStringList j = some cat.brewTaps)) := by
  unfold loadPackagesFromDoc
  dsimp only
  rcases hl : fields.lookup "_brew_taps" with _ | j
  · dsimp only
    rw [loadEntries_eq fields hkeys]
    simp only [Except.bind]
    refine ⟨⟨fun _ => trivial, fun _ => ⟨_, rfl⟩⟩, ?_⟩
    intro cat hcat
    cases hcat
    exact ⟨rfl, rfl⟩
  · dsimp only
    rcases hjs : jsonStringList j with _ | taps
    · simp only [hjs, Except.bind]
      refine ⟨⟨?_, ?_⟩, ?_⟩
      · rintro ⟨cat, hcat⟩
        cases hcat
      · intro h
        simp at h
      · intro cat hcat
        cases hcat
    · rw [loadEntries_eq fields hkeys]
      simp only [hjs, Except.bind]
      refine ⟨⟨fun _ => by simp, fun _ => ⟨_, rfl⟩⟩, ?_⟩
      intro cat hcat
      cases hcat
      exact ⟨rfl, rfl⟩

/-- A catalog document with a tap list, one well-formed entry, one entry that
is not an object, and one entry without a `packages` mapping. -/
def mixedCatalogDoc : List (String × Json) :=
  [("_brew_taps", .arr [.str "oven-sh/bun"]),
   ("git", .obj [("description", .str "vcs"),
     ("packages", .obj [("darwin", .obj [("brew", .str "git")])])]),
   ("broken", .num 3),
   ("odd", .obj [("description", .str "no packages mapping")])]

theorem C8_catalog_load_amended_witness :
    ∃ cat, loadPackagesFromDoc (.obj mixedCatalogDoc) = .ok cat ∧
      cat.packages.map (fun p => p.name) = ["git"] ∧
      cat.brewTaps = ["oven-sh/bun"] := by
  have h := C8_catalog_load_amended mixedCatalogDoc (by decide)
  obtain ⟨cat, hcat⟩ := h.1.mpr (by
    have hj : mixedCatalogDoc.lookup "_brew_taps" = some (.arr [.str "oven-sh/bun"]) := rfl
    rw [hj]
    rfl)
  obtain ⟨hpk, htaps⟩ := h.2 cat hcat
  refine ⟨cat, hcat, ?_, ?_⟩
  · rw [hpk]
    decide
  · have : some ["oven-sh/bun"] = some cat.brewTaps := by
      have hj : mixedCatalogDoc.lookup "_brew_taps" = some (.arr [.str "oven-sh/bun"]) := rfl
      rw [hj] at htaps
      exact htaps
    simpa using this.symm

/-! ## Claim C9 -/

/-- C9: for a not-yet-installed gh-extension package, when `gh auth status`
fails the result is a skip carrying "gh not authenticated" (not a failure),
the only command run in the install phase is the auth probe, and no
`gh extension install` command is attempted. -/
theorem C9_ghext_auth_skip (env : Env) (c : InstalledCache) (target : String)
    (pkg : Package) (m : InstallMethod)
    (hlk : pkg.packages.lookup target = some m)
    (hm : m.MethodName = "gh_extension")
    (hni : (IsInstalled env c pkg.name m).1 = false)
    (hauth : ((env.shell "gh auth status").2).isSome = true) :
    (Install env c target pkg).result =
      ⟨pkg.name, "gh_extension", "skip", "gh not authenticated"⟩ ∧
    (Install env c target pkg).trace = ["gh auth status"] ∧
    ∀ cmd ∈ (Install env c target pkg).trace, goContains cmd "gh extension install" = false := by
  have h : Install env c target pkg =
      ⟨⟨pkg.name, "gh_extension", "skip", "gh not authenticated"⟩,
       (IsInstalled env c pkg.name m).2.1, ["gh auth status"],
       (IsInstalled env c pkg.name m).2.2⟩ := by
    unfold Install
    rw [hlk]
    simp only [hm, hni, hauth]
    simp
  refine ⟨by rw [h], by rw [h], ?_⟩
  rw [h]
  intro cmd hcmd
  simp at hcmd
  subst hcmd
  decide

/-- Oracle for the C9 witness: `gh auth status` fails, the extension list is
empty. -/
def ghUnauthedEnv : Env :=
  { emptyEnv with
    shell := fun cmd =>
      if cmd = "gh auth status" then ("", some "not logged in") else ("", none) }

/-- A package installed through a gh extension. -/
def ghDashPkg : Package :=
  ⟨"gh-dash", "", [("darwin", { ghExtension := "dlvhdr/gh-dash" })]⟩

theorem C9_ghext_auth_skip_witness :
    (Install ghUnauthedEnv [] "darwin" ghDashPkg).result =
      ⟨"gh-dash", "gh_extension", "skip", "gh not authenticated"⟩ ∧
    (Install ghUnauthedEnv [] "darwin" ghDashPkg).trace = ["gh auth status"] := by
  have h := C9_ghext_auth_skip ghUnauthedEnv [] "darwin" ghDashPkg
    { ghExtension := "dlvhdr/gh-dash" } rfl (by decide) (by decide) (by decide)
  exact ⟨h.1, h.2.1⟩

/-! ## Claim C10 -/

/-- C10: an install method with no populated variant field has method name
"unknown"; installing a package that carries it (whose name is not an
existing command) yields exactly one result with status "skip" and error
"unknown method", runs no install command, and triggers no enumeration. -/
theorem C10_unknown_method_skip (env : Env) (c : InstalledCache) (target : String)
    (pkg : Package) (m : InstallMethod)
    (hlk : pkg.packages.lookup target = some m)
    (hempty : m = {})
    (hcmd : env.commandExists pkg.name = false) :
    m.MethodName = "unknown" ∧
    (Install env c target pkg).result = ⟨pkg.name, "unknown", "skip", "unknown method"⟩ ∧
    (Install env c target pkg).trace = [] ∧
    (Install env c target pkg).enums = [] := by
  subst hempty
  refine ⟨by decide, ?_⟩
  have hni : (IsInstalled env c pkg.name {}).1 = false := by
    unfold IsInstalled
    simpa using hcmd
  have h : Install env c target pkg =
      ⟨⟨pkg.name, "unknown", "skip", "unknown method"⟩,
       (IsInstalled env c pkg.name {}).2.1, [], (IsInstalled env c pkg.name {}).2.2⟩ := by
    unfold Install
    rw [hlk]
    simp [hni]
    rfl
  have henums : (IsInstalled env c pkg.name {}).2.2 = [] := by
    unfold IsInstalled
    rfl
  exact ⟨by rw [h], by rw [h], by rw [h]; exact henums⟩

/-- A package whose install method has no populated variant field. -/
def unknownMethodPkg : Package :=
  ⟨"mystery", "", [("darwin", {})]⟩

theorem C10_unknown_method_skip_witness :
    (Install emptyEnv [] "darwin" unknownMethodPkg).result =
      ⟨"mystery", "unknown", "skip", "unknown method"⟩ ∧
    (Install emptyEnv [] "darwin" unknownMethodPkg).trace = [] ∧
    (Install emptyEnv [] "darwin" unknownMethodPkg).enums = [] := by
  have h := C10_unknown_method_skip emptyEnv [] "darwin" unknownMethodPkg {} rfl rfl rfl
  exact h.2

end Dotfiles
